import Mathlib

/-!
Verification of the adaptive review scheduler of the LearningApp repository
(src/user_state.py, src/question_picker.py), as a shallow embedding.

Modelling conventions:
* Python floats are modelled as real numbers; timestamps are rationals
  counting seconds (the code computes `total_seconds() / 3600.0` to get hours).
* `datetime.now()` reads are made explicit: a function that reads the clock
  takes the value(s) it reads as parameters, in the order the code reads them.
* Fallible operations return `Except Err`; a raised ValueError is
  `Err.invalidArgument`, a raised "empty" ValueError is `Err.emptyState`.
* The database slice for one (user_id, topic_id) key is a `DBState`:
  the optional `user_progress` row plus the `attempt_history` list.
  Failure injection: `fail k = true` makes the k-th database operation of
  `record_answer` raise; rollback restores the last committed snapshot.
-/

namespace LearningApp

/-- Errors raised by the Python code (ValueError variants). -/
inductive Err where
  | invalidArgument : Err
  | emptyState : Err
deriving DecidableEq

/-- Python's built-in `round`: round half to even (banker's rounding),
used by `calculate_sm2_interval` via `round(review_count * ef_multiplier)`. -/
def pythonRound (q : ℚ) : ℤ :=
  let f := ⌊q⌋
  let frac := q - f
  if frac < 1/2 then f
  else if 1/2 < frac then f + 1
  else if f % 2 = 0 then f else f + 1

/-- src/user_state.py `calculate_forgetting_factor(last_reviewed, mastery)`,
lines 66-92.  `now` is the value the function reads from `datetime.now()`
internally (line 82).  Returns 1.0 when `last_reviewed` is None (before any
validation); raises ValueError when mastery is outside [0,1]; otherwise
returns `clamp(exp(-elapsed_hours / (24 + mastery * 696)))`. -/
noncomputable def calculate_forgetting_factor (last_reviewed : Option ℚ) (mastery : ℝ)
    (now : ℚ) : Except Err ℝ :=
  match last_reviewed with
  | none => .ok 1.0
  | some lr =>
    if mastery < 0 ∨ mastery > 1 then .error .invalidArgument
    else
      let time_elapsed : ℝ := ((now - lr : ℚ) : ℝ) / 3600.0
      let memory_strength : ℝ := 24 + mastery * 696
      let retention : ℝ := Real.exp (-time_elapsed / memory_strength)
      .ok (max 0.0 (min 1.0 retention))

/-- src/user_state.py `calculate_sm2_interval(easiness_factor, review_count, quality)`,
lines 95-134.  Raises ValueError for quality outside [0,5]; quality < 3 resets
to (1, 0); otherwise the interval depends on the review count and the clamped
easiness factor, and the review count increments. -/
def calculate_sm2_interval (easiness_factor : ℚ) (review_count : ℕ) (quality : ℚ) :
    Except Err (ℤ × ℕ) :=
  if quality < 0 ∨ quality > 5 then .error .invalidArgument
  else if quality < 3 then .ok (1, 0)
  else
    let interval : ℤ :=
      if review_count = 0 then 1
      else if review_count = 1 then 6
      else
        let ef_multiplier : ℚ :=
          if easiness_factor < 1.3 then 1.3
          else if easiness_factor > 2.5 then 2.5
          else easiness_factor
        pythonRound ((review_count : ℚ) * ef_multiplier)
    .ok (interval, review_count + 1)

/-- src/user_state.py `update_easiness_factor(current_ef, quality)`, lines 137-145.
No validation of quality; applies the SM-2 formula and clamps to [1.3, 2.5]. -/
def update_easiness_factor (current_ef : ℚ) (quality : ℚ) : ℚ :=
  let new_ef := current_ef + (0.1 - (5 - quality) * (0.08 + (5 - quality) * 0.02))
  max 1.3 (min 2.5 new_ef)

/-- One `user_progress` row (src/database.py schema; columns used by
src/user_state.py).  `mastery` is a float; timestamps are optional. -/
structure LearnerTopicState where
  attempts : ℕ
  correct : ℕ
  mastery : ℝ
  streak_correct : ℕ
  streak_wrong : ℕ
  last_reviewed : Option ℚ
  next_review : Option ℚ
  easiness_factor : ℚ
  interval_days : ℤ
  review_count : ℕ
  updated_at : Option ℚ

/-- The zeroed row inserted by `init_user_state` (line 55) and by the lazy
initialization in `record_answer` (line 174):
attempts 0, correct 0, mastery 0.0, streaks 0, easiness_factor 2.5,
interval_days 0, review_count 0, timestamps NULL. -/
def initState : LearnerTopicState where
  attempts := 0
  correct := 0
  mastery := 0.0
  streak_correct := 0
  streak_wrong := 0
  last_reviewed := none
  next_review := none
  easiness_factor := 2.5
  interval_days := 0
  review_count := 0
  updated_at := none

/-- One `attempt_history` row for the (user, topic) key under consideration
(src/user_state.py lines 238-241). -/
structure AttemptRecord where
  correct : Bool
  mastery_at_time : ℝ
  retention : ℝ
  timestamp : ℚ

/-- The state-and-record computation of `record_answer`
(src/user_state.py lines 184-241), given the already-loaded row `s`.
`now` is the `current_time` read at line 159; `nowRet` is the clock value
`calculate_forgetting_factor` reads internally (line 82) when
`last_reviewed` is present.  `next_review = now + interval days`
(86400 seconds per day). -/
noncomputable def recordAnswerPure (s : LearnerTopicState) (now nowRet : ℚ)
    (correct : Bool) : Except Err (LearnerTopicState × AttemptRecord) :=
  let attempts := s.attempts + 1
  let correct_count := if correct then s.correct + 1 else s.correct
  let streak_correct := if correct then s.streak_correct + 1 else 0
  let streak_wrong := if correct then 0 else s.streak_wrong + 1
  let quality : ℚ := if correct then 4 else 1
  match (match s.last_reviewed with
         | some lr => calculate_forgetting_factor (some lr) s.mastery nowRet
         | none => .ok 1.0) with
  | .error e => .error e
  | .ok retention =>
    let raw_accuracy : ℝ := (correct_count : ℝ) / ((max 1 attempts : ℕ) : ℝ)
    let mastery : ℝ := raw_accuracy * 0.7 + retention * 0.3
    let easiness_factor := update_easiness_factor s.easiness_factor quality
    match calculate_sm2_interval easiness_factor s.review_count quality with
    | .error e => .error e
    | .ok (interval, new_review_count) =>
      .ok ({ attempts := attempts
             correct := correct_count
             mastery := mastery
             streak_correct := streak_correct
             streak_wrong := streak_wrong
             last_reviewed := some now
             next_review := some (now + (interval : ℚ) * 86400)
             easiness_factor := easiness_factor
             interval_days := interval
             review_count := new_review_count
             updated_at := some now },
           { correct := correct
             mastery_at_time := mastery
             retention := retention
             timestamp := now })

/-- The spec's per-state invariant of C6: correct ≤ attempts, easiness factor
in [1.3, 2.5], and at most one of the two streak counters nonzero. -/
def Inv (s : LearnerTopicState) : Prop :=
  s.correct ≤ s.attempts ∧ 1.3 ≤ s.easiness_factor ∧ s.easiness_factor ≤ 2.5 ∧
    (s.streak_correct = 0 ∨ s.streak_wrong = 0)

/-- Concrete successor of the zeroed state, used by the C6 witness. -/
noncomputable def c6Step : LearnerTopicState × AttemptRecord :=
  (recordAnswerPure initState 0 0 true).toOption.getD
    (initState, { correct := true, mastery_at_time := 0, retention := 0, timestamp := 0 })

/-- Replaying a list of answers through the state update of `record_answer`,
threading the two clock reads of each call. -/
noncomputable def runAnswers (s : LearnerTopicState) (clock : ℕ → ℚ) :
    List Bool → Except Err LearnerTopicState
  | [] => .ok s
  | a :: rest =>
    match recordAnswerPure s (clock 0) (clock 1) a with
    | .error e => .error e
    | .ok (s', _) => runAnswers s' (fun k => clock (k + 2)) rest

/-- States on which a `record_answer` update always succeeds. -/
def Good (s : LearnerTopicState) : Prop :=
  0 ≤ s.mastery ∧ s.mastery ≤ 1 ∧ s.correct ≤ s.attempts

/-- The database slice for one (user_id, topic_id) key: the optional
`user_progress` row and the `attempt_history` rows for that key. -/
structure DBState where
  prog : Option LearnerTopicState
  hist : List AttemptRecord

/-- The database operations of `record_answer` (src/user_state.py lines
158-250) in execution order, used as failure-injection points:
0 = initial SELECT, 1 = lazy INSERT of the zeroed row, 2 = its commit,
3 = the re-SELECT, 4 = the UPDATE, 5 = the history INSERT, 6 = the final
commit.  `fail k = true` makes operation k raise. -/
def recordAnswerOps : List String :=
  ["select", "insert-init", "commit", "select", "update", "insert-history", "commit"]

/-- The tail of `record_answer` after the row `s` has been loaded, acting on
the committed snapshot `c`: compute the new state and record, then UPDATE
(op 4), INSERT into attempt_history (op 5) and COMMIT (op 6).  Any raise
rolls back to `c` and propagates (lines 245-248). -/
noncomputable def recordAnswerMain (c : DBState) (s : LearnerTopicState)
    (now nowRet : ℚ) (correct : Bool) (fail : ℕ → Bool) : Except DBState DBState :=
  match recordAnswerPure s now nowRet correct with
  | .error _ => .error c
  | .ok (s', rec) =>
    if fail 4 then .error c
    else if fail 5 then .error c
    else if fail 6 then .error c
    else .ok { prog := some s', hist := c.hist ++ [rec] }

/-- src/user_state.py `record_answer(user_id, topic_id, correct)`, lines
148-250, for one (user, topic) key.  `clock 0` is `current_time` (line 159);
`clock 1` is the `datetime.now()` read inside `calculate_forgetting_factor`.
When the row is absent, the zeroed row is inserted and committed mid-call
(lines 170-176) before the main update runs.  The result carries the
observable (committed) database state: `.error d` means the call raised and
`d` is observable afterwards. -/
noncomputable def record_answer_db (d : DBState) (clock : ℕ → ℚ) (correct : Bool)
    (fail : ℕ → Bool) : Except DBState DBState :=
  if fail 0 then .error d
  else
    match d.prog with
    | some s => recordAnswerMain d s (clock 0) (clock 1) correct fail
    | none =>
      if fail 1 then .error d
      else if fail 2 then .error d
      else
        let d1 : DBState := { d with prog := some initState }
        if fail 3 then .error d1
        else recordAnswerMain d1 initState (clock 0) (clock 1) correct fail

/-- The urgency factor of `calculate_review_priority`
(src/user_state.py lines 330-348): absent next_review → 0.5; overdue
(time_until_review < 0) → min(2.0, overdue_hours/24); due within 24h → 0.5;
otherwise 0.0.  `time_until_review` is in hours. -/
def urgency_factor (next_review : Option ℚ) (now : ℚ) : ℚ :=
  match next_review with
  | none => 0.5
  | some t =>
    let time_until_review := (t - now) / 3600
    if time_until_review < 0 then min 2.0 (|time_until_review| / 24.0)
    else if time_until_review < 24 then 0.5
    else 0.0

/-- The per-row priority score of `calculate_review_priority`
(src/user_state.py lines 318-363).  `now` is `current_time` (line 310);
`retNow` is the clock value the row's `calculate_forgetting_factor` call
reads internally.  attempts == 0 → 100.0; otherwise
0.4·(1−mastery) + 0.3·urgency + 0.3·(1−retention). -/
noncomputable def priorityScore (s : LearnerTopicState) (now retNow : ℚ) :
    Except Err ℝ :=
  if s.attempts = 0 then .ok 100.0
  else
    let mastery_factor : ℝ := 1.0 - s.mastery
    let uf : ℚ := urgency_factor s.next_review now
    match (match s.last_reviewed with
           | some lr => calculate_forgetting_factor (some lr) s.mastery retNow
           | none => .ok 1.0) with
    | .error e => .error e
    | .ok retention =>
      .ok (mastery_factor * 0.4 + (uf : ℝ) * 0.3 + (1.0 - retention) * 0.3)

/-- Scores every `user_progress` row in order; row i's forgetting-curve call
reads clock value `retNow i`. -/
noncomputable def scoreRows : List (ℕ × LearnerTopicState) → ℚ → (ℕ → ℚ) →
    Except Err (List (ℕ × ℝ))
  | [], _, _ => .ok []
  | r :: rs, now, retNow =>
    match priorityScore r.2 now (retNow 0) with
    | .error e => .error e
    | .ok v =>
      match scoreRows rs now (fun i => retNow (i + 1)) with
      | .error e => .error e
      | .ok rest => .ok ((r.1, v) :: rest)

/-- `priority_list.sort(key=lambda x: x[1], reverse=True)` (line 366):
a stable sort, descending by score. -/
noncomputable def sortByScoreDesc (l : List (ℕ × ℝ)) : List (ℕ × ℝ) :=
  l.mergeSort (fun a b => decide (b.2 ≤ a.2))

/-- src/user_state.py `calculate_review_priority(user_id)`, lines 298-369,
over the learner's `user_progress` rows. -/
noncomputable def calculate_review_priority (rows : List (ℕ × LearnerTopicState))
    (now : ℚ) (retNow : ℕ → ℚ) : Except Err (List (ℕ × ℝ)) :=
  match scoreRows rows now retNow with
  | .error e => .error e
  | .ok l => .ok (sortByScoreDesc l)

/-- The overdue test of `get_topics_needing_review`
(SQL `next_review IS NOT NULL AND next_review <= ?`, line 520). -/
def isOverdue (now : ℚ) (s : LearnerTopicState) : Bool :=
  match s.next_review with
  | some t => decide (t ≤ now)
  | none => false

/-- src/user_state.py `get_topics_needing_review(user_id)`, lines 503-525:
topic ids whose next_review is set and at or before `now`. -/
def get_topics_needing_review (rows : List (ℕ × LearnerTopicState)) (now : ℚ) :
    List ℕ :=
  (rows.filter fun r => isOverdue now r.2).map (·.1)

/-- src/question_picker.py `pick_next_topic(user_id)`, lines 14-46.
`clock 0` is the now read by `get_topics_needing_review`, `clock 1` the one
read by `calculate_review_priority`, `clock (2+i)` the per-row forgetting
reads; `k` models the `random.choice` draws (index modulo candidate count).
Raises ValueError when the learner has no rows. -/
noncomputable def pick_next_topic (rows : List (ℕ × LearnerTopicState))
    (clock : ℕ → ℚ) (k : ℕ) : Except Err ℕ :=
  if rows.isEmpty then .error .emptyState
  else
    let overdue := get_topics_needing_review rows (clock 0)
    if overdue ≠ [] then .ok (overdue.getD (k % overdue.length) 0)
    else
      match calculate_review_priority rows (clock 1) (fun i => clock (2 + i)) with
      | .error e => .error e
      | .ok priority_list =>
        let top := priority_list.take 3
        if top ≠ [] then .ok ((top.getD (k % top.length) (0, 0)).1)
        else .ok ((rows.map (·.1)).getD (k % rows.length) 0)

/-- src/user_state.py `get_target_difficulty(user_id, topic_id)`, lines
253-295, as a function of the loaded row (or its absence). -/
noncomputable def get_target_difficulty (stats : Option LearnerTopicState) : String :=
  match stats with
  | none => "easy"
  | some s =>
    if 3 ≤ s.streak_wrong then "easy"
    else if 5 ≤ s.streak_correct ∧ (0.7 : ℝ) < s.mastery then "hard"
    else if s.mastery < 0.3 then "easy"
    else if s.mastery < 0.6 then "medium"
    else if s.mastery < 0.85 then (if s.streak_correct < 3 then "medium" else "hard")
    else "hard"

/-- The loop body of `init_user_state` (lines 40-56): check whether a row
exists for the topic and insert the zeroed row only when it does not. -/
def initStep (acc : ℕ → Option LearnerTopicState) (t : ℕ) :
    ℕ → Option LearnerTopicState :=
  match acc t with
  | some _ => acc
  | none => Function.update acc t (some initState)

/-- src/user_state.py `init_user_state(user_id)`, lines 22-63, over the
per-learner progress table `db : topic_id → Option row`: raises ValueError
when the registry is empty; otherwise inserts the zeroed row for every
registry topic that has no row yet and leaves existing rows untouched. -/
def init_user_state (topics : List ℕ) (db : ℕ → Option LearnerTopicState) :
    Except Err (ℕ → Option LearnerTopicState) :=
  if topics = [] then .error .emptyState
  else .ok (topics.foldl initStep db)

/-- A row last reviewed at time 0 with the zeroed statistics. -/
def s0 : LearnerTopicState := { initState with last_reviewed := some 0 }

/-- Database slice holding `s0` and no history. -/
def d0 : DBState := { prog := some s0, hist := [] }

/-- A clock whose first read (`current_time`, line 159) returns 3600 and whose
second read (inside `calculate_forgetting_factor`, line 82) returns 7200. -/
def clock0 : ℕ → ℚ := fun k => if k = 0 then 3600 else 7200

/-- The observable database slice after running `record_answer` on `d0` with
clock `clock0` and no injected failures. -/
noncomputable def c2db : DBState :=
  (record_answer_db d0 clock0 true (fun _ => false)).toOption.getD d0

/-- The single history record appended by that run. -/
noncomputable def c2rec : AttemptRecord :=
  c2db.hist.getD 0 { correct := true, mastery_at_time := 0, retention := 0, timestamp := 0 }

/-- The observable database slice of the C2 witness run: the zeroed row,
answered correctly once, with all clock reads at 0 and no failures. -/
noncomputable def c2wdb : DBState :=
  (record_answer_db { prog := some initState, hist := [] } (fun _ => 0) true
    (fun _ => false)).toOption.getD { prog := none, hist := [] }

/-- An attempted row with half mastery, used by concrete witnesses. -/
def s0two : LearnerTopicState :=
  { initState with attempts := 1, correct := 1, mastery := 0.5 }

/-- Classical decidability for row comparisons appearing in specification
statements (rows contain real numbers). -/
noncomputable instance : DecidableEq (Option LearnerTopicState) :=
  fun a b => Classical.propDecidable (a = b)

/-- A row whose review is overdue at time 100 (next_review at 0). -/
def sOver : LearnerTopicState := { initState with next_review := some 0 }

/-- A state with high mastery and a long correct streak but attempts = 0,
showing that `get_target_difficulty` never consults attempts. -/
def s7 : LearnerTopicState := { initState with mastery := 0.9, streak_correct := 5 }

/-- Unfolding equation for `calculate_forgetting_factor` with a present
`last_reviewed` and a valid mastery. -/
theorem calculate_forgetting_factor_eq (lr : ℚ) (m : ℝ) (now : ℚ)
    (h0 : 0 ≤ m) (h1 : m ≤ 1) :
    calculate_forgetting_factor (some lr) m now =
      .ok (max 0.0 (min 1.0
        (Real.exp (-(((now - lr : ℚ) : ℝ) / 3600.0) / (24 + m * 696))))) := by
  have hvalid : ¬ (m < 0 ∨ m > 1) := by push_neg; exact ⟨h0, h1⟩
  simp only [calculate_forgetting_factor, if_neg hvalid]

/-- The forgetting-factor value is `.ok` and lies in [0,1] whenever mastery is
in [0,1] (the clamp `max(0.0, min(1.0, retention))` at line 92). -/
theorem calculate_forgetting_factor_ok_mem (last_reviewed : Option ℚ) (mastery : ℝ)
    (now : ℚ) (h0 : 0 ≤ mastery) (h1 : mastery ≤ 1) :
    ∃ r, calculate_forgetting_factor last_reviewed mastery now = .ok r ∧
      0 ≤ r ∧ r ≤ 1 := by
  match last_reviewed with
  | none => exact ⟨1, by norm_num [calculate_forgetting_factor], by norm_num, by norm_num⟩
  | some lr =>
    refine ⟨_, calculate_forgetting_factor_eq lr mastery now h0 h1, ?_, ?_⟩
    · exact le_trans (by norm_num) (le_max_left 0.0 _)
    · exact max_le (by norm_num) ((min_le_left _ _).trans (by norm_num))

/-- C9: retention is non-increasing in elapsed time for fixed mastery: with a
common `now`, an earlier `last_reviewed` (hence a larger elapsed time) gives a
retention less than or equal to that of a later `last_reviewed`. -/
theorem c9_retention_antitone_in_elapsed (mastery : ℝ) (now lr1 lr2 : ℚ)
    (h0 : 0 ≤ mastery) (h1 : mastery ≤ 1) (hle : lr2 ≤ lr1) :
    ∃ r1 r2, calculate_forgetting_factor (some lr1) mastery now = .ok r1 ∧
      calculate_forgetting_factor (some lr2) mastery now = .ok r2 ∧
      r2 ≤ r1 := by
  refine ⟨_, _, calculate_forgetting_factor_eq lr1 mastery now h0 h1,
    calculate_forgetting_factor_eq lr2 mastery now h0 h1, ?_⟩
  have hS : (0 : ℝ) < 24 + mastery * 696 := by nlinarith
  have hnum : ((now - lr1 : ℚ) : ℝ) ≤ ((now - lr2 : ℚ) : ℝ) := by
    have : (now - lr1 : ℚ) ≤ (now - lr2 : ℚ) := sub_le_sub_left hle now
    exact_mod_cast this
  have key : (((now - lr1 : ℚ) : ℝ) / 3600.0) / (24 + mastery * 696) ≤
      (((now - lr2 : ℚ) : ℝ) / 3600.0) / (24 + mastery * 696) :=
    (div_le_div_right hS).2 ((div_le_div_right (by norm_num)).2 hnum)
  have hexp : Real.exp (-(((now - lr2 : ℚ) : ℝ) / 3600.0) / (24 + mastery * 696)) ≤
      Real.exp (-(((now - lr1 : ℚ) : ℝ) / 3600.0) / (24 + mastery * 696)) := by
    apply Real.exp_le_exp.2
    rw [neg_div, neg_div]
    exact neg_le_neg key
  exact max_le_max (le_refl 0.0) (min_le_min (le_refl 1.0) hexp)

/-- C9 witness: instantiates the monotonicity theorem at mastery = 1/2,
now = 7200, last-reviewed times 3600 and 0 (elapsed 1h versus 2h). -/
theorem c9_retention_antitone_witness :
    ∃ r1 r2, calculate_forgetting_factor (some 3600) (1/2) 7200 = .ok r1 ∧
      calculate_forgetting_factor (some 0) (1/2) 7200 = .ok r2 ∧
      r2 ≤ r1 :=
  c9_retention_antitone_in_elapsed (1/2) 7200 3600 0 (by norm_num) (by norm_num)
    (by norm_num)

/-- C3 counterexample: with `last_reviewed` absent the function returns 1.0 for
mastery = 2 (outside [0,1]) instead of failing, and `update_easiness_factor`
accepts quality = 6 (outside [0,5]) and returns a value instead of failing. -/
theorem c3_counterexample :
    calculate_forgetting_factor none 2 0 = .ok 1.0 ∧
    update_easiness_factor 2 6 = 2.16 := by
  constructor
  · rfl
  · norm_num [update_easiness_factor]

/-- C3 (amended): when `last_reviewed` is present, `calculate_forgetting_factor`
fails with InvalidArgument for every mastery outside [0,1]; and
`calculate_sm2_interval` fails with InvalidArgument for every quality outside
[0,5]; `update_easiness_factor` performs no validation (it is total). -/
theorem c3_invalid_argument (m : ℝ) (q ef : ℚ) (rc : ℕ) (lr now : ℚ)
    (hm : m < 0 ∨ m > 1) (hq : q < 0 ∨ q > 5) :
    calculate_forgetting_factor (some lr) m now = .error .invalidArgument ∧
    calculate_sm2_interval ef rc q = .error .invalidArgument := by
  constructor
  · simp only [calculate_forgetting_factor, if_pos hm]
  · simp only [calculate_sm2_interval, if_pos hq]

/-- C3 witness: instantiates the amended theorem at mastery = -1, quality = 6. -/
theorem c3_invalid_argument_witness :
    calculate_forgetting_factor (some 0) (-1) 0 = .error .invalidArgument ∧
    calculate_sm2_interval 2 0 6 = .error .invalidArgument :=
  c3_invalid_argument (-1) 6 2 0 0 0 (Or.inl (by norm_num)) (Or.inr (by norm_num))

/-- The easiness-factor update always lands in [1.3, 2.5]. -/
theorem update_easiness_factor_mem (current_ef quality : ℚ) :
    1.3 ≤ update_easiness_factor current_ef quality ∧
      update_easiness_factor current_ef quality ≤ 2.5 :=
  ⟨le_max_left _ _, max_le (by norm_num) (min_le_left _ _)⟩

/-- A step of `recordAnswerPure` succeeds whenever the stored mastery is in
[0,1], and the successor state keeps mastery in [0,1], keeps
correct ≤ attempts, and moves the streak pair as the code does. -/
theorem recordAnswerPure_ok (s : LearnerTopicState) (now nowRet : ℚ) (correct : Bool)
    (h0 : 0 ≤ s.mastery) (h1 : s.mastery ≤ 1) (hca : s.correct ≤ s.attempts) :
    ∃ s' rec, recordAnswerPure s now nowRet correct = .ok (s', rec) ∧
      0 ≤ s'.mastery ∧ s'.mastery ≤ 1 ∧ s'.correct ≤ s'.attempts ∧
      s'.attempts = s.attempts + 1 ∧
      (correct = true → s'.streak_correct = s.streak_correct + 1 ∧ s'.streak_wrong = 0 ∧
        s'.correct = s.correct + 1) ∧
      (correct = false → s'.streak_wrong = s.streak_wrong + 1 ∧ s'.streak_correct = 0 ∧
        s'.correct = s.correct) ∧
      1.3 ≤ s'.easiness_factor ∧ s'.easiness_factor ≤ 2.5 ∧
      s'.last_reviewed = some now ∧ s'.updated_at = some now := by
  obtain ⟨r, hr, hr0, hr1⟩ := calculate_forgetting_factor_ok_mem s.last_reviewed s.mastery
    nowRet h0 h1
  have hret : (match s.last_reviewed with
      | some lr => calculate_forgetting_factor (some lr) s.mastery nowRet
      | none => (.ok 1.0 : Except Err ℝ)) = .ok r := by
    match hlr : s.last_reviewed with
    | some lr => rw [hlr] at hr; exact hr
    | none =>
      rw [hlr] at hr
      simp only [calculate_forgetting_factor] at hr
      simpa using hr
  have hsm2 : ∃ iv rc, calculate_sm2_interval
      (update_easiness_factor s.easiness_factor (if correct then 4 else 1))
      s.review_count (if correct then 4 else 1) = .ok (iv, rc) := by
    cases correct <;>
      simp only [calculate_sm2_interval, if_true, if_false, Bool.false_eq_true] <;>
      norm_num
  obtain ⟨iv, rc, hsm2⟩ := hsm2
  have hcc : (if correct then s.correct + 1 else s.correct) ≤ s.attempts + 1 := by
    cases correct <;> simp <;> omega
  have hacc0 : (0 : ℝ) ≤ ((if correct then s.correct + 1 else s.correct : ℕ) : ℝ) /
      ((max 1 (s.attempts + 1) : ℕ) : ℝ) := by positivity
  have hacc1 : ((if correct then s.correct + 1 else s.correct : ℕ) : ℝ) /
      ((max 1 (s.attempts + 1) : ℕ) : ℝ) ≤ 1 := by
    rw [div_le_one (by positivity)]
    have hle : (if correct then s.correct + 1 else s.correct) ≤ max 1 (s.attempts + 1) :=
      le_trans hcc (Nat.le_max_right 1 (s.attempts + 1))
    exact_mod_cast hle
  simp only [recordAnswerPure, hret, hsm2]
  refine ⟨_, _, rfl, ?_, ?_, ?_, rfl, ?_, ?_, ?_, ?_, rfl, rfl⟩
  · dsimp only; nlinarith
  · dsimp only; nlinarith
  · dsimp only; simpa using hcc
  · intro hc; subst hc; simp
  · intro hc; subst hc; simp
  · exact (update_easiness_factor_mem _ _).1
  · exact (update_easiness_factor_mem _ _).2

/-- C6: the invariant holds for the zeroed state created by `init_user_state`
and by `record_answer`'s lazy initialization, and is preserved by every
successful `record_answer` state update. -/
theorem c6_state_invariant :
    Inv initState ∧
    ∀ (s : LearnerTopicState) (now nowRet : ℚ) (correct : Bool)
      (s' : LearnerTopicState) (rec : AttemptRecord),
      Inv s → recordAnswerPure s now nowRet correct = .ok (s', rec) → Inv s' := by
  constructor
  · exact ⟨le_refl 0, by norm_num [initState], by norm_num [initState], Or.inl rfl⟩
  · intro s now nowRet correct s' rec hInv hok
    simp only [recordAnswerPure] at hok
    rcases hret : (match s.last_reviewed with
        | some lr => calculate_forgetting_factor (some lr) s.mastery nowRet
        | none => (.ok 1.0 : Except Err ℝ)) with e | r
    · rw [hret] at hok; exact absurd hok (by simp)
    · rw [hret] at hok
      rcases hsm2 : calculate_sm2_interval
          (update_easiness_factor s.easiness_factor (if correct = true then 4 else 1))
          s.review_count (if correct = true then 4 else 1) with e | ivrc
      · rw [hsm2] at hok; exact absurd hok (by simp)
      · obtain ⟨iv, rc⟩ := ivrc
        rw [hsm2] at hok
        simp only [Except.ok.injEq, Prod.mk.injEq] at hok
        obtain ⟨hs', hrec⟩ := hok
        subst hs'
        refine ⟨?_, (update_easiness_factor_mem _ _).1,
          (update_easiness_factor_mem _ _).2, ?_⟩
        · dsimp only
          have := hInv.1
          cases correct <;> simp <;> omega
        · dsimp only
          cases correct <;> simp

/-- C6 witness: applies the invariant theorem to the zeroed state and to one
concrete correct answer recorded on it. -/
theorem c6_state_invariant_witness : Inv c6Step.1 :=
  c6_state_invariant.2 initState 0 0 true c6Step.1 c6Step.2
    ⟨le_refl 0, by norm_num [initState], by norm_num [initState], Or.inl rfl⟩ rfl

/-- Replaying n correct answers from a good state succeeds, adds n to the
correct streak, and zeroes the wrong streak as soon as n ≥ 1. -/
theorem runAnswers_replicate_true (n : ℕ) :
    ∀ (s : LearnerTopicState) (clock : ℕ → ℚ), Good s →
      ∃ s', runAnswers s clock (List.replicate n true) = .ok s' ∧ Good s' ∧
        s'.streak_correct = s.streak_correct + n ∧
        (n = 0 → s'.streak_wrong = s.streak_wrong) ∧
        (n ≠ 0 → s'.streak_wrong = 0) := by
  induction n with
  | zero =>
    intro s clock hG
    exact ⟨s, rfl, hG, rfl, fun _ => rfl, fun h => absurd rfl h⟩
  | succ m ih =>
    intro s clock hG
    obtain ⟨s1, rec1, hok, hm0, hm1, hca, _, hT, _, _, _, _, _⟩ :=
      recordAnswerPure_ok s (clock 0) (clock 1) true hG.1 hG.2.1 hG.2.2
    obtain ⟨hsc1, hsw1, _⟩ := hT rfl
    obtain ⟨s', hrun, hG', hsc', hsw'0, hsw'⟩ :=
      ih s1 (fun k => clock (k + 2)) ⟨hm0, hm1, hca⟩
    refine ⟨s', ?_, hG', ?_, ?_, ?_⟩
    · simp only [List.replicate_succ, runAnswers, hok]
      exact hrun
    · rw [hsc', hsc1]; omega
    · intro h; exact absurd h (by omega)
    · intro _
      rcases Nat.eq_zero_or_pos m with hm | hm
      · subst hm; rw [hsw'0 rfl, hsw1]
      · exact hsw' (by omega)

/-- C8: starting from the zeroed state, after N ≥ 1 consecutive correct
`record_answer` updates the state has streak_correct = N and streak_wrong = 0,
and one subsequent incorrect update yields streak_wrong = 1 and
streak_correct = 0. -/
theorem c8_streaks (N : ℕ) (hN : 1 ≤ N) (clock clock2 : ℕ → ℚ) :
    ∃ s', runAnswers initState clock (List.replicate N true) = .ok s' ∧
      s'.streak_correct = N ∧ s'.streak_wrong = 0 ∧
      ∃ s'' rec2, recordAnswerPure s' (clock2 0) (clock2 1) false = .ok (s'', rec2) ∧
        s''.streak_wrong = 1 ∧ s''.streak_correct = 0 := by
  obtain ⟨s', hrun, hG', hsc', _, hsw'⟩ := runAnswers_replicate_true N initState clock
    (by refine ⟨?_, ?_, le_refl 0⟩ <;> norm_num [initState])
  have hsw0 : s'.streak_wrong = 0 := hsw' (by omega)
  obtain ⟨s'', rec2, hok2, _, _, _, _, _, hF, _, _, _, _⟩ :=
    recordAnswerPure_ok s' (clock2 0) (clock2 1) false hG'.1 hG'.2.1 hG'.2.2
  obtain ⟨hsw2, hsc2, _⟩ := hF rfl
  exact ⟨s', hrun, by simpa [initState] using hsc', hsw0,
    s'', rec2, hok2, by rw [hsw2, hsw0], hsc2⟩

/-- C8 witness: instantiates the streak theorem at N = 1 with constant clocks. -/
theorem c8_streaks_witness :
    ∃ s', runAnswers initState (fun _ => 0) (List.replicate 1 true) = .ok s' ∧
      s'.streak_correct = 1 ∧ s'.streak_wrong = 0 ∧
      ∃ s'' rec2, recordAnswerPure s' 0 0 false = .ok (s'', rec2) ∧
        s''.streak_wrong = 1 ∧ s''.streak_correct = 0 :=
  c8_streaks 1 (le_refl 1) (fun _ => 0) (fun _ => 0)

/-- C1 counterexample: with no prior row, injecting a failure at the history
INSERT (op 5) leaves the lazily-created zeroed row committed: the call raises
but the observable state is not the prior state. -/
theorem c1_counterexample :
    record_answer_db { prog := none, hist := [] } (fun _ => 0) true (fun k => k = 5) =
      .error { prog := some initState, hist := [] } ∧
    ({ prog := some initState, hist := [] } : DBState) ≠ { prog := none, hist := [] } := by
  constructor
  · rfl
  · intro h
    exact Option.noConfusion (congrArg DBState.prog h)

/-- C1 (amended): when a row already exists, `record_answer` is atomic: either
it raises and the prior database slice is observable unchanged, or it succeeds
and the updated row is persisted together with exactly one appended history
record.  When no row exists, the same holds except that the raising case may
leave exactly the freshly committed zeroed row (history still unchanged). -/
theorem c1_atomicity (d : DBState) (clock : ℕ → ℚ) (correct : Bool) (fail : ℕ → Bool) :
    (∀ s, d.prog = some s →
      record_answer_db d clock correct fail = .error d ∨
      ∃ s' rec, recordAnswerPure s (clock 0) (clock 1) correct = .ok (s', rec) ∧
        record_answer_db d clock correct fail =
          .ok { prog := some s', hist := d.hist ++ [rec] }) ∧
    (d.prog = none →
      record_answer_db d clock correct fail = .error d ∨
      record_answer_db d clock correct fail = .error { d with prog := some initState } ∨
      ∃ s' rec, recordAnswerPure initState (clock 0) (clock 1) correct = .ok (s', rec) ∧
        record_answer_db d clock correct fail =
          .ok { prog := some s', hist := d.hist ++ [rec] }) := by
  constructor
  · intro s hs
    simp only [record_answer_db, hs]
    by_cases h0 : fail 0
    · simp [h0]
    · simp only [h0, if_false]
      simp only [recordAnswerMain]
      rcases hp : recordAnswerPure s (clock 0) (clock 1) correct with e | sr
      · simp
      · obtain ⟨s', rec⟩ := sr
        by_cases h4 : fail 4
        · simp [h4]
        · by_cases h5 : fail 5
          · simp [h4, h5]
          · by_cases h6 : fail 6
            · simp [h4, h5, h6]
            · simp only [h4, h5, h6, if_false]
              exact Or.inr ⟨s', rec, rfl, rfl⟩
  · intro hs
    simp only [record_answer_db, hs]
    by_cases h0 : fail 0
    · simp [h0]
    · simp only [h0, if_false]
      by_cases h1 : fail 1
      · simp [h1]
      · by_cases h2 : fail 2
        · simp [h1, h2]
        · by_cases h3 : fail 3
          · simp [h1, h2, h3]
          · simp only [h1, h2, h3, if_false]
            simp only [recordAnswerMain]
            rcases hp : recordAnswerPure initState (clock 0) (clock 1) correct with e | sr
            · simp
            · obtain ⟨s', rec⟩ := sr
              by_cases h4 : fail 4
              · simp [h4]
              · by_cases h5 : fail 5
                · simp [h4, h5]
                · by_cases h6 : fail 6
                  · simp [h4, h5, h6]
                  · simp only [h4, h5, h6, if_false]
                    exact Or.inr (Or.inr ⟨s', rec, rfl, rfl⟩)

/-- C1 witness: the atomicity theorem applied to a concrete existing row and
the failure-free injection. -/
theorem c1_atomicity_witness :
    record_answer_db { prog := some initState, hist := [] } (fun _ => 0) true
        (fun _ => false) = .error { prog := some initState, hist := [] } ∨
    ∃ s' rec, recordAnswerPure initState 0 0 true = .ok (s', rec) ∧
      record_answer_db { prog := some initState, hist := [] } (fun _ => 0) true
          (fun _ => false) = .ok { prog := some s', hist := [] ++ [rec] } :=
  (c1_atomicity { prog := some initState, hist := [] } (fun _ => 0) true
    (fun _ => false)).1 initState rfl

/-- Field-level description of a successful `record_answer` state update:
all four written timestamps come from `now` (the single `current_time` read),
while the retention stored in the history record is the forgetting factor
computed against `nowRet` (the clock read inside
`calculate_forgetting_factor`). -/
theorem recordAnswerPure_fields (s : LearnerTopicState) (now nowRet : ℚ)
    (correct : Bool) (s' : LearnerTopicState) (rec : AttemptRecord)
    (hok : recordAnswerPure s now nowRet correct = .ok (s', rec)) :
    s'.last_reviewed = some now ∧ s'.updated_at = some now ∧
    s'.next_review = some (now + (s'.interval_days : ℚ) * 86400) ∧
    rec.timestamp = now ∧ rec.correct = correct ∧
    rec.mastery_at_time = s'.mastery ∧
    calculate_forgetting_factor s.last_reviewed s.mastery nowRet = .ok rec.retention := by
  simp only [recordAnswerPure] at hok
  rcases hret : (match s.last_reviewed with
      | some lr => calculate_forgetting_factor (some lr) s.mastery nowRet
      | none => (.ok 1.0 : Except Err ℝ)) with e | r
  · rw [hret] at hok; exact absurd hok (by simp)
  · rw [hret] at hok
    rcases hsm2 : calculate_sm2_interval
        (update_easiness_factor s.easiness_factor (if correct = true then 4 else 1))
        s.review_count (if correct = true then 4 else 1) with e | ivrc
    · rw [hsm2] at hok; exact absurd hok (by simp)
    · obtain ⟨iv, rc⟩ := ivrc
      rw [hsm2] at hok
      simp only [Except.ok.injEq, Prod.mk.injEq] at hok
      obtain ⟨hs', hrec⟩ := hok
      subst hs'; subst hrec
      refine ⟨rfl, rfl, rfl, rfl, rfl, rfl, ?_⟩
      match hlr : s.last_reviewed with
      | some lr => rw [hlr] at hret; exact hret
      | none =>
        rw [hlr] at hret
        simp only [Except.ok.injEq] at hret
        simp only [calculate_forgetting_factor, hret]

/-- C2 counterexample: in this concrete failure-free `record_answer` call the
written `last_reviewed` and the history timestamp are the first clock read
(3600), yet the recorded retention is NOT the forgetting factor computed
against that same timestamp — the call read the clock a second time (7200)
inside `calculate_forgetting_factor` and used that value. -/
theorem c2_counterexample :
    record_answer_db d0 clock0 true (fun _ => false) = .ok c2db ∧
    c2db.hist = [c2rec] ∧
    c2db.prog.map LearnerTopicState.last_reviewed = some (some 3600) ∧
    c2rec.timestamp = 3600 ∧
    calculate_forgetting_factor s0.last_reviewed s0.mastery 3600 ≠ .ok c2rec.retention := by
  have h0 : (0 : ℝ) ≤ s0.mastery := by norm_num [s0, initState]
  have h1 : s0.mastery ≤ 1 := by norm_num [s0, initState]
  have hca : s0.correct ≤ s0.attempts := le_refl 0
  obtain ⟨s', rec, hok, _⟩ := recordAnswerPure_ok s0 3600 7200 true h0 h1 hca
  obtain ⟨hlr', _, _, hts, _, _, hcff⟩ :=
    recordAnswerPure_fields s0 3600 7200 true s' rec hok
  have hrun : record_answer_db d0 clock0 true (fun _ => false) =
      .ok { prog := some s', hist := [rec] } := by
    have hc0 : clock0 0 = 3600 := rfl
    have hc1 : clock0 1 = 7200 := rfl
    simp only [record_answer_db, recordAnswerMain, d0, hc0, hc1, Bool.false_eq_true,
      if_false, reduceIte]
    rw [hok]
    simp
  have hdb : c2db = { prog := some s', hist := [rec] } := by
    rw [c2db, hrun]; rfl
  have hcrec : c2rec = rec := by rw [c2rec, hdb]; rfl
  have hlr0 : s0.last_reviewed = some 0 := rfl
  refine ⟨by rw [hdb]; exact hrun, by rw [hdb, hcrec], ?_, by rw [hcrec]; exact hts, ?_⟩
  · rw [hdb]; simpa using hlr'
  · rw [hcrec]
    rw [hlr0] at hcff ⊢
    rw [calculate_forgetting_factor_eq 0 s0.mastery 7200 h0 h1] at hcff
    rw [calculate_forgetting_factor_eq 0 s0.mastery 3600 h0 h1]
    have hm : s0.mastery = 0 := by norm_num [s0, initState]
    have hA1 : -((((3600 : ℚ) - 0 : ℚ) : ℝ) / 3600.0) / (24 + s0.mastery * 696) =
        -(1 / 24) := by rw [hm]; push_cast; norm_num
    have hA2 : -((((7200 : ℚ) - 0 : ℚ) : ℝ) / 3600.0) / (24 + s0.mastery * 696) =
        -(1 / 12) := by rw [hm]; push_cast; norm_num
    rw [hA2] at hcff
    rw [hA1]
    have hle1 : Real.exp (-(1 / 24)) ≤ 1 := by
      rw [show (1 : ℝ) = Real.exp 0 from Real.exp_zero.symm]
      exact Real.exp_le_exp.2 (by norm_num)
    have hle2 : Real.exp (-(1 / 12)) ≤ 1 := by
      rw [show (1 : ℝ) = Real.exp 0 from Real.exp_zero.symm]
      exact Real.exp_le_exp.2 (by norm_num)
    have hclamp : ∀ x : ℝ, 0 < x → x ≤ 1 → max 0.0 (min 1.0 x) = x := by
      intro x hx0 hx1
      rw [min_eq_right (by norm_num; linarith), max_eq_right (by norm_num; linarith)]
    have hclamp1 : max 0.0 (min 1.0 (Real.exp (-(1 / 24)))) = Real.exp (-(1 / 24)) :=
      hclamp _ (Real.exp_pos _) hle1
    have hclamp2 : max 0.0 (min 1.0 (Real.exp (-(1 / 12)))) = Real.exp (-(1 / 12)) :=
      hclamp _ (Real.exp_pos _) hle2
    have hretval : rec.retention = Real.exp (-(1 / 12)) := by
      have := hcff
      rw [hclamp2] at this
      exact (Except.ok.inj this).symm
    rw [hclamp1, hretval]
    intro hcontra
    have heq : Real.exp (-(1 / 24)) = Real.exp (-(1 / 12)) :=
      Except.ok.inj hcontra
    have hlt : Real.exp (-(1 / 12 : ℝ)) < Real.exp (-(1 / 24)) :=
      Real.exp_lt_exp.2 (by norm_num)
    exact absurd heq (ne_of_gt hlt)

/-- C2 (amended): in every successful `record_answer` call the single
`current_time` read (`clock 0`) is what is written as last_reviewed,
updated_at, the base of next_review and the history timestamp, while the
retention stored in the history record is computed against a second clock
read (`clock 1`); and in `calculate_review_priority` each attempted row's
score combines the urgency factor computed from the call's single
`current_time` with a retention computed against that row's own fresh clock
read. -/
theorem c2_single_read_amended :
    (∀ (d : DBState) (s : LearnerTopicState) (clock : ℕ → ℚ) (correct : Bool)
       (fail : ℕ → Bool) (d' : DBState),
       d.prog = some s →
       record_answer_db d clock correct fail = .ok d' →
       ∃ s' rec, d'.prog = some s' ∧ d'.hist = d.hist ++ [rec] ∧
         s'.last_reviewed = some (clock 0) ∧ s'.updated_at = some (clock 0) ∧
         s'.next_review = some (clock 0 + (s'.interval_days : ℚ) * 86400) ∧
         rec.timestamp = clock 0 ∧
         calculate_forgetting_factor s.last_reviewed s.mastery (clock 1) =
           .ok rec.retention) ∧
    (∀ (s : LearnerTopicState) (now retNow : ℚ), s.attempts ≠ 0 →
       0 ≤ s.mastery → s.mastery ≤ 1 →
       ∃ r, calculate_forgetting_factor s.last_reviewed s.mastery retNow = .ok r ∧
         priorityScore s now retNow = .ok ((1.0 - s.mastery) * 0.4 +
           ((urgency_factor s.next_review now : ℚ) : ℝ) * 0.3 + (1.0 - r) * 0.3)) := by
  constructor
  · intro d s clock correct fail d' hs hrun
    simp only [record_answer_db, hs] at hrun
    by_cases h0 : fail 0
    · rw [if_pos h0] at hrun; exact absurd hrun (by simp)
    · rw [if_neg h0] at hrun
      simp only [recordAnswerMain] at hrun
      rcases hp : recordAnswerPure s (clock 0) (clock 1) correct with e | sr
      · rw [hp] at hrun; exact absurd hrun (by simp)
      · obtain ⟨s', rec⟩ := sr
        rw [hp] at hrun
        dsimp only at hrun
        by_cases h4 : fail 4
        · rw [if_pos h4] at hrun; exact absurd hrun (by simp)
        · rw [if_neg h4] at hrun
          by_cases h5 : fail 5
          · rw [if_pos h5] at hrun; exact absurd hrun (by simp)
          · rw [if_neg h5] at hrun
            by_cases h6 : fail 6
            · rw [if_pos h6] at hrun; exact absurd hrun (by simp)
            · rw [if_neg h6] at hrun
              have hd' : d' = { prog := some s', hist := d.hist ++ [rec] } :=
                (Except.ok.inj hrun).symm
              subst hd'
              obtain ⟨hl, hu, hn, ht, _, _, hc⟩ :=
                recordAnswerPure_fields s (clock 0) (clock 1) correct s' rec hp
              exact ⟨s', rec, rfl, rfl, hl, hu, hn, ht, hc⟩
  · intro s now retNow hatt h0 h1
    obtain ⟨r, hr, _, _⟩ :=
      calculate_forgetting_factor_ok_mem s.last_reviewed s.mastery retNow h0 h1
    have hret : (match s.last_reviewed with
        | some lr => calculate_forgetting_factor (some lr) s.mastery retNow
        | none => (.ok 1.0 : Except Err ℝ)) = .ok r := by
      match hlr : s.last_reviewed with
      | some lr => rw [hlr] at hr; exact hr
      | none =>
        rw [hlr] at hr
        simp only [calculate_forgetting_factor] at hr
        simpa using hr
    refine ⟨r, hr, ?_⟩
    simp only [priorityScore, if_neg hatt, hret]

/-- C2 witness: applies the amended theorem to a concrete successful call. -/
theorem c2_single_read_witness :
    ∃ s' rec, c2wdb.prog = some s' ∧ c2wdb.hist = [] ++ [rec] ∧
      s'.last_reviewed = some 0 ∧ s'.updated_at = some 0 ∧
      s'.next_review = some (0 + (s'.interval_days : ℚ) * 86400) ∧
      rec.timestamp = 0 ∧
      calculate_forgetting_factor initState.last_reviewed initState.mastery 0 =
        .ok rec.retention :=
  c2_single_read_amended.1 { prog := some initState, hist := [] } initState
    (fun _ => 0) true (fun _ => false) c2wdb rfl rfl

/-- The urgency factor always lies in [0, 2]: the overdue branch is capped by
`min(2.0, ...)` and the other branches yield 0.5 or 0.0. -/
theorem urgency_factor_mem (nr : Option ℚ) (now : ℚ) :
    0 ≤ urgency_factor nr now ∧ urgency_factor nr now ≤ 2 := by
  match nr with
  | none => exact ⟨by norm_num [urgency_factor], by norm_num [urgency_factor]⟩
  | some t =>
    simp only [urgency_factor]
    constructor
    · split
      · exact le_min (by norm_num) (by positivity)
      · split <;> norm_num
    · split
      · exact (min_le_left _ _).trans (by norm_num)
      · split <;> norm_num

/-- Unfolding of `priorityScore` for an attempted row with valid mastery:
the score is 0.4·(1−mastery) + 0.3·urgency + 0.3·(1−retention), with the
retention in [0,1]. -/
theorem priorityScore_attempted (s : LearnerTopicState) (now retNow : ℚ)
    (hatt : s.attempts ≠ 0) (h0 : 0 ≤ s.mastery) (h1 : s.mastery ≤ 1) :
    ∃ r, calculate_forgetting_factor s.last_reviewed s.mastery retNow = .ok r ∧
      0 ≤ r ∧ r ≤ 1 ∧
      priorityScore s now retNow = .ok ((1.0 - s.mastery) * 0.4 +
        ((urgency_factor s.next_review now : ℚ) : ℝ) * 0.3 + (1.0 - r) * 0.3) := by
  obtain ⟨r, hr, hr0, hr1⟩ :=
    calculate_forgetting_factor_ok_mem s.last_reviewed s.mastery retNow h0 h1
  have hret : (match s.last_reviewed with
      | some lr => calculate_forgetting_factor (some lr) s.mastery retNow
      | none => (.ok 1.0 : Except Err ℝ)) = .ok r := by
    match hlr : s.last_reviewed with
    | some lr => rw [hlr] at hr; exact hr
    | none =>
      rw [hlr] at hr
      simp only [calculate_forgetting_factor] at hr
      simpa using hr
  refine ⟨r, hr, hr0, hr1, ?_⟩
  simp only [priorityScore, if_neg hatt, hret]

/-- An attempted row with valid mastery scores strictly below 100. -/
theorem priorityScore_attempted_lt (s : LearnerTopicState) (now retNow : ℚ)
    (hatt : s.attempts ≠ 0) (h0 : 0 ≤ s.mastery) (h1 : s.mastery ≤ 1) :
    ∃ v, priorityScore s now retNow = .ok v ∧ v < 100 := by
  obtain ⟨r, _, hr0, _, hps⟩ := priorityScore_attempted s now retNow hatt h0 h1
  refine ⟨_, hps, ?_⟩
  have hu := urgency_factor_mem s.next_review now
  have hu2 : ((urgency_factor s.next_review now : ℚ) : ℝ) ≤ 2 := by
    exact_mod_cast hu.2
  linarith

/-- `scoreRows` succeeds when every row's mastery is valid, and every score it
produces is at most 100. -/
theorem scoreRows_ok (rows : List (ℕ × LearnerTopicState)) :
    ∀ (now : ℚ) (retNow : ℕ → ℚ),
      (∀ r ∈ rows, 0 ≤ r.2.mastery ∧ r.2.mastery ≤ 1) →
      ∃ out, scoreRows rows now retNow = .ok out ∧ ∀ p ∈ out, p.2 ≤ 100 := by
  induction rows with
  | nil => exact fun now rc _ => ⟨[], rfl, by simp⟩
  | cons r rs ih =>
    intro now rc hm
    obtain ⟨out, hout, hb⟩ := ih now (fun i => rc (i + 1))
      (fun x hx => hm x (List.mem_cons_of_mem r hx))
    have hmr := hm r (List.mem_cons_self r rs)
    by_cases hatt : r.2.attempts = 0
    · have hhead : priorityScore r.2 now (rc 0) = .ok 100.0 := by
        simp [priorityScore, hatt]
      refine ⟨(r.1, 100.0) :: out, ?_, ?_⟩
      · simp only [scoreRows, hhead, hout]
      · intro p hp
        rcases List.mem_cons.1 hp with hp | hp
        · subst hp; norm_num
        · exact hb p hp
    · obtain ⟨v, hv, hvlt⟩ := priorityScore_attempted_lt r.2 now (rc 0) hatt hmr.1 hmr.2
      refine ⟨(r.1, v) :: out, ?_, ?_⟩
      · simp only [scoreRows, hv, hout]
      · intro p hp
        rcases List.mem_cons.1 hp with hp | hp
        · subst hp; exact le_of_lt hvlt
        · exact hb p hp

/-- The descending sort used by `calculate_review_priority` yields a list
pairwise-sorted by score, descending. -/
theorem sortByScoreDesc_sorted (l : List (ℕ × ℝ)) :
    (sortByScoreDesc l).Pairwise (fun a b => b.2 ≤ a.2) := by
  have htrans : ∀ (a b c : ℕ × ℝ), (fun a b : ℕ × ℝ => decide (b.2 ≤ a.2)) a b = true →
      (fun a b : ℕ × ℝ => decide (b.2 ≤ a.2)) b c = true →
      (fun a b : ℕ × ℝ => decide (b.2 ≤ a.2)) a c = true := by
    intro a b c h1 h2
    simp only [decide_eq_true_eq] at h1 h2 ⊢
    exact le_trans h2 h1
  have htotal : ∀ (a b : ℕ × ℝ), ((fun a b : ℕ × ℝ => decide (b.2 ≤ a.2)) a b ||
      (fun a b : ℕ × ℝ => decide (b.2 ≤ a.2)) b a) = true := by
    intro a b
    simp only [Bool.or_eq_true, decide_eq_true_eq]
    exact le_total b.2 a.2
  have h := List.sorted_mergeSort htrans htotal l
  exact h.imp (by intro a b hab; simpa using hab)

/-- The sort is a permutation (it loses and invents no scored row). -/
theorem sortByScoreDesc_perm (l : List (ℕ × ℝ)) : (sortByScoreDesc l).Perm l :=
  List.mergeSort_perm l _

/-- C4: every unattempted row scores exactly 100.0, every attempted row with
valid mastery scores strictly below 100.0, and in the descending-sorted output
of `calculate_review_priority` every score-100 row (i.e. every unattempted
topic) precedes every lower-scoring (attempted) row: whenever a later element
has score 100, so does every earlier one. -/
theorem c4_priority_scores (rows : List (ℕ × LearnerTopicState)) (now : ℚ)
    (retNow : ℕ → ℚ)
    (hm : ∀ r ∈ rows, 0 ≤ r.2.mastery ∧ r.2.mastery ≤ 1) :
    (∀ r ∈ rows, r.2.attempts = 0 → ∀ t, priorityScore r.2 now t = .ok 100.0) ∧
    (∀ r ∈ rows, r.2.attempts ≠ 0 → ∀ t, ∃ v, priorityScore r.2 now t = .ok v ∧
      v < 100) ∧
    (∃ scored out, scoreRows rows now retNow = .ok scored ∧
      calculate_review_priority rows now retNow = .ok out ∧ out.Perm scored ∧
      out.Pairwise (fun a b => b.2 ≤ a.2) ∧ (∀ p ∈ out, p.2 ≤ 100) ∧
      out.Pairwise (fun a b => b.2 = 100 → a.2 = 100)) := by
  refine ⟨?_, ?_, ?_⟩
  · intro r _ hatt t
    simp [priorityScore, hatt]
  · intro r hr hatt t
    exact priorityScore_attempted_lt r.2 now t hatt (hm r hr).1 (hm r hr).2
  · obtain ⟨scored, hscored, hb⟩ := scoreRows_ok rows now retNow hm
    have hperm := sortByScoreDesc_perm scored
    have hsorted := sortByScoreDesc_sorted scored
    have hmem : ∀ p ∈ sortByScoreDesc scored, p.2 ≤ 100 :=
      fun p hp => hb p (hperm.mem_iff.1 hp)
    refine ⟨scored, sortByScoreDesc scored, hscored, ?_, hperm, hsorted, hmem, ?_⟩
    · simp only [calculate_review_priority, hscored]
    · refine hsorted.imp_of_mem ?_
      intro a b ha hb' hR h100
      rw [h100] at hR
      exact le_antisymm (hmem a ha) hR

/-- C4 witness: instantiates the score theorem on one unattempted row and one
attempted row with valid mastery. -/
theorem c4_priority_scores_witness :
    (∀ r ∈ [((0 : ℕ), initState), (1, s0two)], r.2.attempts = 0 → ∀ t,
      priorityScore r.2 0 t = .ok 100.0) ∧
    (∀ r ∈ [((0 : ℕ), initState), (1, s0two)], r.2.attempts ≠ 0 → ∀ t,
      ∃ v, priorityScore r.2 0 t = .ok v ∧ v < 100) ∧
    (∃ scored out, scoreRows [((0 : ℕ), initState), (1, s0two)] 0 (fun _ => 0) =
        .ok scored ∧
      calculate_review_priority [((0 : ℕ), initState), (1, s0two)] 0 (fun _ => 0) =
        .ok out ∧ out.Perm scored ∧
      out.Pairwise (fun a b => b.2 ≤ a.2) ∧ (∀ p ∈ out, p.2 ≤ 100) ∧
      out.Pairwise (fun a b => b.2 = 100 → a.2 = 100)) :=
  c4_priority_scores [((0 : ℕ), initState), (1, s0two)] 0 (fun _ => 0)
    (by
      intro r hr
      rcases List.mem_cons.1 hr with h | h
      · subst h; exact ⟨by norm_num [initState], by norm_num [initState]⟩
      · rcases List.mem_cons.1 h with h2 | h2
        · subst h2; exact ⟨by norm_num [s0two, initState], by norm_num [s0two, initState]⟩
        · exact absurd h2 (List.not_mem_nil r))

/-- C5: when the learner's rows contain exactly one overdue topic (the overdue
query returns the singleton [t]) and at least one non-overdue row exists,
`pick_next_topic` returns that topic for every random draw. -/
theorem c5_single_overdue_always_picked (rows : List (ℕ × LearnerTopicState))
    (clock : ℕ → ℚ) (t : ℕ)
    (h1 : get_topics_needing_review rows (clock 0) = [t])
    (h2 : ∃ r ∈ rows, isOverdue (clock 0) r.2 = false) :
    ∀ k, pick_next_topic rows clock k = .ok t := by
  intro k
  have hne : rows.isEmpty = false := by
    cases hrows : rows with
    | nil => rw [hrows] at h1; simp [get_topics_needing_review] at h1
    | cons a l => rfl
  simp only [pick_next_topic, hne, Bool.false_eq_true, if_false, h1]
  have hlen : ([t] : List ℕ).length = 1 := rfl
  simp [Nat.mod_one]

/-- C5 witness: two rows, one overdue at clock time 100, one never scheduled;
the picker returns the overdue topic for the concrete draw k = 3. -/
theorem c5_single_overdue_witness :
    get_topics_needing_review [(1, sOver), (2, initState)] ((fun _ => (100 : ℚ)) 0) =
      [1] ∧
    pick_next_topic [(1, sOver), (2, initState)] (fun _ => (100 : ℚ)) 3 = .ok 1 :=
  ⟨rfl, c5_single_overdue_always_picked [(1, sOver), (2, initState)]
    (fun _ => (100 : ℚ)) 1 rfl ⟨(2, initState), by norm_num, rfl⟩ 3⟩

/-- C7 counterexample: a state with attempts = 0 but mastery 0.9 and correct
streak 5 gets "hard", not "easy" — `get_target_difficulty` never consults
attempts, so "attempts == 0 implies easy" fails for such a state. -/
theorem c7_counterexample :
    s7.attempts = 0 ∧ get_target_difficulty (some s7) = "hard" ∧
    ("hard" : String) ≠ "easy" := by
  refine ⟨rfl, ?_, by decide⟩
  have h3 : ¬ (3 ≤ s7.streak_wrong) := by norm_num [s7, initState]
  have h5 : 5 ≤ s7.streak_correct ∧ (0.7 : ℝ) < s7.mastery := by
    constructor
    · norm_num [s7, initState]
    · norm_num [s7, initState]
  simp only [get_target_difficulty, if_neg h3, if_pos h5]

/-- C7 (amended): `get_target_difficulty` returns "easy" whenever no state
exists; the decision is a pure function of (mastery, streak_correct,
streak_wrong) only — attempts is never consulted — with the streak_wrong ≥ 3
override evaluated before every other rule; and every state with mastery 0
(in particular the zeroed states, the only attempts == 0 states the system
creates) yields "easy". -/
theorem c7_difficulty (s s' : LearnerTopicState)
    (hm : s.mastery = s'.mastery) (hsc : s.streak_correct = s'.streak_correct)
    (hsw : s.streak_wrong = s'.streak_wrong) :
    get_target_difficulty none = "easy" ∧
    get_target_difficulty (some s) = get_target_difficulty (some s') ∧
    (3 ≤ s.streak_wrong → get_target_difficulty (some s) = "easy") ∧
    (s.mastery = 0 → get_target_difficulty (some s) = "easy") := by
  refine ⟨rfl, ?_, ?_, ?_⟩
  · simp only [get_target_difficulty, hm, hsc, hsw]
  · intro h3
    simp only [get_target_difficulty, if_pos h3]
  · intro h0
    simp only [get_target_difficulty]
    by_cases h3 : 3 ≤ s.streak_wrong
    · rw [if_pos h3]
    · rw [if_neg h3,
        if_neg (fun hc => absurd hc.2 (by rw [h0]; norm_num)),
        if_pos (by rw [h0]; norm_num)]

/-- C7 witness: the amended difficulty theorem applied to the zeroed state
(compared with itself). -/
theorem c7_difficulty_witness :
    get_target_difficulty none = "easy" ∧
    get_target_difficulty (some initState) = get_target_difficulty (some initState) ∧
    (3 ≤ initState.streak_wrong → get_target_difficulty (some initState) = "easy") ∧
    (initState.mastery = 0 → get_target_difficulty (some initState) = "easy") :=
  c7_difficulty initState initState rfl rfl rfl

/-- The fold of `init_user_state` inserts the zeroed row exactly at the
registry topics that have no row and leaves every other entry unchanged. -/
theorem initStep_foldl_eq (topics : List ℕ) :
    ∀ (db : ℕ → Option LearnerTopicState) (t : ℕ),
      (topics.foldl initStep db) t =
        if db t = none ∧ t ∈ topics then some initState else db t := by
  induction topics with
  | nil =>
    intro db t
    simp
  | cons tp rest ih =>
    intro db t
    rw [List.foldl_cons, ih (initStep db tp) t]
    rcases hdb : db tp with _ | s
    · simp only [initStep, hdb]
      by_cases ht : t = tp
      · subst ht
        simp [Function.update_same, hdb, List.mem_cons]
      · rw [Function.update_noteq ht]
        have hiff : (db t = none ∧ t ∈ rest) ↔ (db t = none ∧ t ∈ tp :: rest) := by
          constructor
          · rintro ⟨ha, hb⟩; exact ⟨ha, List.mem_cons_of_mem _ hb⟩
          · rintro ⟨ha, hb⟩
            rcases List.mem_cons.1 hb with h | h
            · exact absurd h ht
            · exact ⟨ha, h⟩
        rw [if_congr hiff rfl rfl]
    · simp only [initStep, hdb]
      have hiff : (db t = none ∧ t ∈ rest) ↔ (db t = none ∧ t ∈ tp :: rest) := by
        constructor
        · rintro ⟨ha, hb⟩; exact ⟨ha, List.mem_cons_of_mem _ hb⟩
        · rintro ⟨ha, hb⟩
          rcases List.mem_cons.1 hb with h | h
          · subst h; rw [hdb] at ha; exact absurd ha (by simp)
          · exact ⟨ha, h⟩
      rw [if_congr hiff rfl rfl]

/-- C10: with a nonempty registry, `init_user_state` succeeds, leaves every
existing row exactly as it was, creates the zeroed row precisely for registry
topics with no row, touches nothing outside the registry, and is idempotent. -/
theorem c10_init_idempotent (topics : List ℕ) (db : ℕ → Option LearnerTopicState)
    (hne : topics ≠ []) :
    ∃ f, init_user_state topics db = .ok f ∧
      (∀ t s, db t = some s → f t = some s) ∧
      (∀ t, t ∈ topics → db t = none → f t = some initState) ∧
      (∀ t, t ∉ topics → f t = db t) ∧
      init_user_state topics f = .ok f := by
  refine ⟨topics.foldl initStep db, by simp [init_user_state, hne], ?_, ?_, ?_, ?_⟩
  · intro t s hts
    rw [initStep_foldl_eq topics db t, if_neg (by rw [hts]; rintro ⟨h, _⟩; cases h)]
    exact hts
  · intro t htop hnone
    rw [initStep_foldl_eq topics db t, if_pos ⟨hnone, htop⟩]
  · intro t htop
    rw [initStep_foldl_eq topics db t, if_neg (fun hc => absurd hc.2 htop)]
  · have hfix : topics.foldl initStep (topics.foldl initStep db) =
        topics.foldl initStep db := by
      funext t
      rw [initStep_foldl_eq topics (topics.foldl initStep db) t]
      by_cases hc : (topics.foldl initStep db) t = none ∧ t ∈ topics
      · exfalso
        rw [initStep_foldl_eq topics db t] at hc
        rcases hc with ⟨hnone, htop⟩
        rw [if_pos ?_] at hnone
        · exact Option.noConfusion hnone
        · by_cases hdb : db t = none
          · exact ⟨hdb, htop⟩
          · exfalso
            rw [if_neg (fun hx => hdb hx.1)] at hnone
            exact hdb hnone
      · rw [if_neg hc]
    simp [init_user_state, hne, hfix]

/-- C10 witness: the init theorem applied to the one-topic registry [0] and
the empty table. -/
theorem c10_init_idempotent_witness :
    ∃ f, init_user_state [0] (fun _ => none) = .ok f ∧
      (∀ t s, (fun _ => (none : Option LearnerTopicState)) t = some s →
        f t = some s) ∧
      (∀ t, t ∈ [0] → (fun _ => (none : Option LearnerTopicState)) t = none →
        f t = some initState) ∧
      (∀ t, t ∉ [0] → f t = (fun _ => (none : Option LearnerTopicState)) t) ∧
      init_user_state [0] f = .ok f :=
  c10_init_idempotent [0] (fun _ => none) (List.cons_ne_nil 0 [])

end LearningApp
